import Mathlib

/- Verification development for the eStick simulator beamforming engine.
   Embedded source files: Beamformer.cpp / Beamformer.h, PluginProcessor.cpp,
   eStickSimDefs.h.  Audio samples are modelled as integers, an
   exact-arithmetic idealization of the float samples used by the code
   (every sample value appearing in the verified properties is integral;
   the claims concern copying, shifting and linear accumulation, which are
   ring-generic). -/

/-- Available eSticks configurations (eStickSimDefs.h, enum MicConfig). -/
inductive MicConfig where
  | ULA_1ESTICK
  | ULA_2ESTICK
  | ULA_3ESTICK
  | ULA_4ESTICK
  | URA_2ESTICK
  | URA_3ESTICK
  | URA_4ESTICK
  | URA_2x2ESTICK
deriving DecidableEq

/-- Geometry switch of the Beamformer constructor (Beamformer.cpp, the
switch over micConfig setting numMic and numRows). -/
def micConfigParams : MicConfig → ℕ × ℕ
  | MicConfig.ULA_1ESTICK => (16, 1)
  | MicConfig.ULA_2ESTICK => (32, 1)
  | MicConfig.URA_2ESTICK => (32, 2)
  | MicConfig.ULA_3ESTICK => (48, 1)
  | MicConfig.URA_3ESTICK => (48, 3)
  | MicConfig.ULA_4ESTICK => (64, 1)
  | MicConfig.URA_4ESTICK => (64, 4)
  | MicConfig.URA_2x2ESTICK => (64, 2)

/-- Parameters of one beam (BeamParameters: direction of arrival and gain),
as passed to setParams and to the FIR synthesizer. -/
structure BeamParameters where
  doaX : ℚ
  doaY : ℚ
  gain : ℚ
deriving DecidableEq

/-- Multichannel time-domain sample buffer (juce AudioBuffer of float):
a fixed per-buffer sample count and one sample list per channel. -/
structure AudioBuffer where
  samples : ℕ
  data : List (List ℤ)
deriving DecidableEq

/-- Fuel-driven computation of the ceiling of the base-2 logarithm,
mirroring the constructor expression ceil(log2(firLen +
maximumExpectedSamplesPerBlock - 1)).  Written with structural fuel
recursion so that it evaluates by kernel reduction. -/
def ceilLog2Go : ℕ → ℕ → ℕ
  | 0, _ => 0
  | fuel + 1, n => if n ≤ 1 then 0 else ceilLog2Go fuel ((n + 1) / 2) + 1

/-- Ceiling of log2, total on naturals (0 for inputs 0 and 1). -/
def ceilLog2 (n : ℕ) : ℕ := ceilLog2Go n n

/-- Zero-pad (or truncate) a sample list to exactly n entries, as staging a
time series into a fixed-capacity channel does. -/
def padTo (n : ℕ) (l : List ℤ) : List ℤ :=
  l.take n ++ List.replicate (n - l.length) 0

/-- Modelled from the spec: the frequency-domain buffer primitive
(AudioBufferFFT, whose source file AudioBufferFFT.h is not part of the
embedded sources).  Per the spec it wraps a shared FFT sized to cover
filter length plus block length; each channel stores twice the FFT size
many values (the stored convention whose half gives the accumulator
length).  The model represents a prepared channel by the time series it
was staged from, zero-padded to the channel capacity; the forward and
inverse transforms therefore cancel and convolve has the linear
convolution semantics the spec guarantees for this transform size. -/
structure AudioBufferFFT where
  fftSize : ℕ
  chans : List (List ℤ)
deriving DecidableEq

/-- Modelled from the spec: per-channel sample capacity of an
AudioBufferFFT, twice the FFT size. -/
def AudioBufferFFT.getNumSamples (b : AudioBufferFFT) : ℕ := 2 * b.fftSize

/-- Modelled from the spec: a cleared AudioBufferFFT with the given channel
count, sharing an FFT of the given size. -/
def clearFFT (numChannels fftSize : ℕ) : AudioBufferFFT :=
  { fftSize := fftSize
    chans := List.replicate numChannels (List.replicate (2 * fftSize) 0) }

/-- Modelled from the spec: AudioBufferFFT.setTimeSeries stages the
channels of a time-domain buffer into the cleared FFT buffer (channels the
source lacks stay zero). -/
def setTimeSeries (b : AudioBufferFFT) (src : AudioBuffer) : AudioBufferFFT :=
  { b with
    chans := (List.range b.chans.length).map
      (fun c => padTo (2 * b.fftSize) (src.data.getD c [])) }

/-- Modelled from the spec: AudioBufferFFT.prepareForConvolution forward
transforms the staged channels.  In this model a prepared channel is
identified with its time series, so the operation is the identity. -/
def prepareForConvolution (b : AudioBufferFFT) : AudioBufferFFT := b

/-- Coefficient n of the linear convolution of two sample lists (indices
outside a list read as zero). -/
def convCoeff (x h : List ℤ) (n : ℕ) : ℤ :=
  ∑ k ∈ Finset.range (n + 1), x.getD k 0 * h.getD (n - k) 0

/-- First len coefficients of the linear convolution of two sample lists.
Modelled from the spec: the frequency-domain multiply of two prepared
channels realizes linear convolution at this transform size. -/
def linConvList (x h : List ℤ) (len : ℕ) : List ℤ :=
  (List.range len).map (convCoeff x h)

/-- Modelled from the spec: AudioBufferFFT.addToTimeSeries accumulates
(adds, does not overwrite) the inverse transform of a convolution channel
into the first len samples of a destination channel, len being the
destination sample count. -/
def addSamples (len : ℕ) (dst contrib : List ℤ) : List ℤ :=
  (List.range len).map (fun i => dst.getD i 0 + contrib.getD i 0)

/-- Default AudioBufferFFT used when reading a per-source buffer list out
of range. -/
def dfltFFT : AudioBufferFFT := { fftSize := 0, chans := [] }

/-- Default AudioBuffer used when reading a per-source buffer list out of
range. -/
def dfltAB : AudioBuffer := { samples := 0, data := [] }

/-- State of the Beamformer class (Beamformer.h).  The beamforming
algorithm (DAS::FarfieldURA, constructed into a unique pointer) is
represented by its getFir coefficient synthesis function; sample rate and
the float alpha computation are abstracted into the stored alpha
coefficient, which no embedded claim depends on numerically. -/
structure Beamformer where
  numSources : ℕ
  micConfig : MicConfig
  numMic : ℕ
  numRows : ℕ
  firLen : ℕ
  fftOrder : ℕ
  alpha : ℚ
  algSynth : Option (BeamParameters → ℚ → AudioBuffer → AudioBuffer)
  firIR : List AudioBuffer
  firFFT : List AudioBufferFFT
  inputBuffer : AudioBufferFFT
  convolutionBuffer : AudioBufferFFT
  outBuffer : AudioBuffer

/-- Beamformer constructor for a given microphone count and row count
(the body of Beamformer::Beamformer after the geometry switch): FFT order
is ceil(log2(firLen + maximumExpectedSamplesPerBlock - 1)); FIR buffers,
input buffer and convolution buffer are allocated cleared; the output
accumulator gets half the convolution buffer sample capacity. -/
def mkEngine (numSources_ numMic_ numRows_ : ℕ) (mic : MicConfig)
    (maxBlock algFirLen : ℕ)
    (synth : BeamParameters → ℚ → AudioBuffer → AudioBuffer)
    (alpha_ : ℚ) : Beamformer :=
  let ord := ceilLog2 (algFirLen + maxBlock - 1)
  let cb := clearFFT 1 (2 ^ ord)
  { numSources := numSources_
    micConfig := mic
    numMic := numMic_
    numRows := numRows_
    firLen := algFirLen
    fftOrder := ord
    alpha := alpha_
    algSynth := some synth
    firIR := List.replicate numSources_
      { samples := algFirLen
        data := List.replicate numMic_ (List.replicate algFirLen 0) }
    firFFT := List.replicate numSources_ (clearFFT numMic_ (2 ^ ord))
    inputBuffer := clearFFT numSources_ (2 ^ ord)
    convolutionBuffer := cb
    outBuffer :=
      { samples := cb.getNumSamples / 2
        data := List.replicate numMic_
          (List.replicate (cb.getNumSamples / 2) 0) } }

/-- Beamformer constructor (Beamformer::Beamformer): resolves the
microphone configuration through the geometry switch, then allocates as
mkEngine.  The filter length is obtained from the algorithm
(alg->getFirLen(), here a parameter since the algorithm is external). -/
def mkBeamformer (numSources_ : ℕ) (mic : MicConfig) (maxBlock algFirLen : ℕ)
    (synth : BeamParameters → ℚ → AudioBuffer → AudioBuffer)
    (alpha_ : ℚ) : Beamformer :=
  mkEngine numSources_ (micConfigParams mic).1 (micConfigParams mic).2 mic
    maxBlock algFirLen synth alpha_

/-- Beamformer::getMicConfig. -/
def getMicConfig (st : Beamformer) : MicConfig := st.micConfig

/-- Beamformer::setParams.  The null-algorithm guard returns unchanged
state.  The unchecked vector accesses firIR[srcIdx] and firFFT[srcIdx]
have no defined behavior out of range; the model returns none there.
In range, the algorithm regenerates (blends) the FIR in place and the
frequency-domain FIR is recomputed synchronously. -/
def setParams (st : Beamformer) (srcIdx : ℕ) (params : BeamParameters) :
    Option Beamformer :=
  match st.algSynth with
  | none => some st
  | some synth =>
    match st.firIR.get? srcIdx, st.firFFT.get? srcIdx with
    | some fir, some fbuf =>
      let fir2 := synth params st.alpha fir
      let fbuf2 := prepareForConvolution (setTimeSeries fbuf fir2)
      some { st with
        firIR := st.firIR.set srcIdx fir2
        firFFT := st.firFFT.set srcIdx fbuf2 }
    | _, _ => none

/-- Convenience wrapper keeping the original state when setParams hits the
undefined out-of-range case. -/
def setParamsD (st : Beamformer) (srcIdx : ℕ) (params : BeamParameters) :
    Beamformer :=
  (setParams st srcIdx params).getD st

/-- Beamformer::processBlock: stage and transform the input block, then
for each source and each microphone channel convolve the source input
channel with that source-microphone FIR slice into the convolution buffer
and overlap-add it into the output accumulator. -/
def processBlock (st : Beamformer) (inBlock : AudioBuffer) : Beamformer :=
  let inp := prepareForConvolution (setTimeSeries st.inputBuffer inBlock)
  let cap := 2 * 2 ^ st.fftOrder
  let r := (List.range st.numSources).foldl
    (fun (p : List (List ℤ) × List (List ℤ)) srcIdx =>
      (List.range st.numMic).foldl
        (fun (q : List (List ℤ) × List (List ℤ)) outCh =>
          let conv := linConvList (inp.chans.getD srcIdx [])
            ((st.firFFT.getD srcIdx dfltFFT).chans.getD outCh []) cap
          (q.1.set outCh (addSamples st.outBuffer.samples (q.1.getD outCh []) conv),
           q.2.set 0 conv))
        p)
    (st.outBuffer.data, st.convolutionBuffer.chans)
  { st with
    inputBuffer := inp
    convolutionBuffer := { st.convolutionBuffer with chans := r.2 }
    outBuffer := { st.outBuffer with data := r.1 } }

/-- Beamformer::getFir: read-only passthrough to the algorithm getFir,
writing only the caller-supplied destination buffer (the const method
touches no engine member). -/
def getFir (st : Beamformer) (fir : AudioBuffer) (params : BeamParameters)
    (alpha_ : ℚ) : Beamformer × AudioBuffer :=
  match st.algSynth with
  | some synth => (st, synth params alpha_ fir)
  | none => (st, fir)

/-- One channel of the accumulator shift in Beamformer::getOutput: the
copy moves accLen - k samples from offset k to offset 0 and the clear
zero-fills the remaining positions up to accLen. -/
def shiftClearCh (accLen k : ℕ) (ch : List ℤ) : List ℤ :=
  (ch.drop k).take (accLen - k) ++ List.replicate (accLen - (accLen - k)) 0

/-- Body of the channel loop in Beamformer::getOutput: copy the first k
accumulator samples of channel c into the destination channel, then shift
and clear accumulator channel c. -/
def outStep (accLen k : ℕ) (p : List (List ℤ) × List (List ℤ)) (c : ℕ) :
    List (List ℤ) × List (List ℤ) :=
  (p.1.set c (shiftClearCh accLen k (p.1.getD c [])),
   p.2.set c ((p.1.getD c []).take k ++ (p.2.getD c []).drop k))

/-- Beamformer::getOutput: for each channel up to
min(numMic, dst channel count), copy the first dst.samples accumulator
samples out, shift the accumulator channel left by that amount and
zero-fill its tail. -/
def getOutput (st : Beamformer) (dst : AudioBuffer) :
    Beamformer × AudioBuffer :=
  let r := (List.range (min st.numMic dst.data.length)).foldl
    (outStep st.outBuffer.samples dst.samples)
    (st.outBuffer.data, dst.data)
  ({ st with outBuffer := { st.outBuffer with data := r.1 } },
   { dst with data := r.2 })

/-- NUM_SOURCES (eStickSimDefs.h). -/
def numSourcesDef : ℕ := 2

/-- State of EstickSimAudioProcessor (PluginProcessor.h) as far as the
audio path is concerned.  The input gain and high-pass prefilter stage is
abstracted into preFx (float IIR filtering), and the steering parameter
reads into srcParams. -/
structure EstickProcessor where
  resourcesAllocated : Bool
  beamformer : Option Beamformer
  preFx : AudioBuffer → AudioBuffer
  srcParams : ℕ → BeamParameters

/-- Buffer.clear() on a whole multichannel buffer. -/
def clearBuffer (b : AudioBuffer) : AudioBuffer :=
  { b with data := b.data.map (fun ch => List.replicate ch.length 0) }

/-- EstickSimAudioProcessor::processBlock: out-of-order calls (resources
not allocated) return at once leaving the buffer and all state untouched;
otherwise prefilter, push parameters, run the beamformer, clear the host
buffer and collect the beamformer output into it. -/
def procProcessBlock (p : EstickProcessor) (buffer : AudioBuffer) :
    EstickProcessor × AudioBuffer :=
  if p.resourcesAllocated = false then (p, buffer)
  else
    match p.beamformer with
    | none => (p, buffer)
    | some bf =>
      let buf1 := p.preFx buffer
      let bf1 := (List.range numSourcesDef).foldl
        (fun b s => setParamsD b s (p.srcParams s)) bf
      let bf2 := processBlock bf1 buf1
      let r := getOutput bf2 (clearBuffer buf1)
      ({ p with beamformer := some r.1 }, r.2)

/-- EstickSimAudioProcessor::releaseResources: drop the allocated flag and
destroy the beamformer. -/
def releaseResources (p : EstickProcessor) : EstickProcessor :=
  { p with resourcesAllocated := false, beamformer := none }

/-- Forward transform of a time-domain buffer into the shape of a given
FFT buffer, as performed by setParams on the per-source frequency FIR:
stage the time series, then prepare it for convolution. -/
def fftTimeTransform (b : AudioBufferFFT) (src : AudioBuffer) : AudioBufferFFT :=
  prepareForConvolution (setTimeSeries b src)

/-- Sequential per-channel update: fold of set over an index range. -/
def setEach (f : ℕ → List ℤ → List ℤ) (l : List (List ℤ)) (n : ℕ) :
    List (List ℤ) :=
  (List.range n).foldl (fun a c => a.set c (f c (a.getD c []))) l

/-- One source step of the accumulation in processBlock, expressed as a
per-channel update: every microphone channel receives the contribution of
the given source. -/
def accumStep (conv : ℕ → ℕ → List ℤ) (len nMic : ℕ)
    (a : List (List ℤ)) (s : ℕ) : List (List ℤ) :=
  setEach (fun c ch => addSamples len ch (conv s c)) a nMic

/-- Synthesizer stub that keeps the previous FIR (used to instantiate
engines whose filters are irrelevant to the proved fact). -/
def synthId : BeamParameters → ℚ → AudioBuffer → AudioBuffer :=
  fun _ _ b => b

/-- Neutral beam parameters. -/
def prm0 : BeamParameters := { doaX := 0, doaY := 0, gain := 0 }

/-- Two-microphone engine state with a loaded accumulator, used to
instantiate the getOutput theorems. -/
def stW : Beamformer :=
  { numSources := 0
    micConfig := MicConfig.ULA_1ESTICK
    numMic := 2
    numRows := 1
    firLen := 0
    fftOrder := 0
    alpha := 1
    algSynth := none
    firIR := []
    firFFT := []
    inputBuffer := dfltFFT
    convolutionBuffer := dfltFFT
    outBuffer := { samples := 3, data := [[1, 2, 3], [4, 5, 6]] } }

/-- Two-channel destination requesting two samples. -/
def dstW : AudioBuffer := { samples := 2, data := [[0, 0], [9, 9]] }

/-- Three-channel destination, one channel more than stW has microphones. -/
def dstW10 : AudioBuffer := { samples := 1, data := [[7], [8], [9]] }

/-- Synthesizer placing a one-tap FIR on microphone channel 1 only. -/
def synthC1 : BeamParameters → ℚ → AudioBuffer → AudioBuffer :=
  fun _ _ _ => { samples := 1, data := [[0], [1]] ++ List.replicate 14 [0] }

/-- Engine constructed through the catalog (16 microphones), with the
synthC1 filter applied and one unit-impulse block processed, so that
accumulator channel 1 is non-zero. -/
def stC1 : Beamformer :=
  processBlock
    (setParamsD (mkBeamformer 1 MicConfig.ULA_1ESTICK 1 1 synthC1 1) 0 prm0)
    { samples := 1, data := [[1]] }

/-- Single-channel destination for getOutput against stC1. -/
def dstC1 : AudioBuffer := { samples := 1, data := [[0]] }

/-- Engine with two sources used for the setParams range analysis. -/
def stC7 : Beamformer := mkBeamformer 2 MicConfig.ULA_1ESTICK 2 2 synthId 1

/-- Synthesizer writing the same two-tap FIR on every microphone. -/
def synthC5 : BeamParameters → ℚ → AudioBuffer → AudioBuffer :=
  fun _ _ _ => { samples := 2, data := List.replicate 16 [1, 2] }

/-- Engine for the setParams synchronization witness. -/
def stC5 : Beamformer := mkBeamformer 1 MicConfig.ULA_1ESTICK 1 2 synthC5 1

/-- State of stC5 immediately after setParams returns. -/
def stC5a : Beamformer := setParamsD stC5 0 prm0

/-- Processor before prepareToPlay: resources not allocated. -/
def procW : EstickProcessor :=
  { resourcesAllocated := false
    beamformer := none
    preFx := id
    srcParams := fun _ => prm0 }

/-- Host buffer handed to the unready processor. -/
def bufW : AudioBuffer := { samples := 1, data := [[5]] }

/-- Synthesizer writing the one-tap FIR 2 on the single microphone. -/
def synthC4 : BeamParameters → ℚ → AudioBuffer → AudioBuffer :=
  fun _ _ _ => { samples := 1, data := [[2]] }

/-- Two-source single-microphone engine with both FIRs loaded, for the
superposition witness. -/
def stC4 : Beamformer :=
  setParamsD (setParamsD (mkEngine 2 1 1 MicConfig.ULA_1ESTICK 1 1 synthC4 1) 0 prm0) 1 prm0

/-- Input block carrying samples 3 and 5 on the two source channels. -/
def inC4 : AudioBuffer := { samples := 1, data := [[3], [5]] }

/-- Synthesizer writing the FIR 1,1,1,1 on the single microphone. -/
def synthC2 : BeamParameters → ℚ → AudioBuffer → AudioBuffer :=
  fun _ _ _ => { samples := 4, data := [[1, 1, 1, 1]] }

/-- Single-source single-microphone engine, filter length 4, block size 2,
FIR 1,1,1,1 loaded: the end-to-end configuration named by the spec. -/
def stC2 : Beamformer :=
  setParamsD (mkEngine 1 1 1 MicConfig.ULA_1ESTICK 2 4 synthC2 1) 0 prm0

/-- One processBlock plus getOutput pair on a block of two samples,
returning the new engine state and the two emitted microphone samples. -/
def c2Step (st : Beamformer) (blk : List ℤ) : Beamformer × List ℤ :=
  let st1 := processBlock st { samples := 2, data := [blk] }
  let r := getOutput st1 { samples := 2, data := [[0, 0]] }
  (r.1, r.2.data.getD 0 [])

/-- Microphone output stream of the four-block end-to-end run: blocks
1,0 then 0,0 then 0,0 then 0,0 through repeated processBlock plus
getOutput pairs. -/
def c2Out : List ℤ :=
  (([[(1 : ℤ), 0], [0, 0], [0, 0], [0, 0]]).foldl
    (fun (a : Beamformer × List ℤ) blk =>
      let r := c2Step a.1 blk
      (r.1, a.2 ++ r.2))
    (stC2, [])).2

/- Helper lemmas -/

/-- Reading a mapped range list below the bound gives the function value. -/
lemma getD_map_range {α : Type} (f : ℕ → α) (n i : ℕ) (d : α) (hi : i < n) :
    ((List.range n).map f).getD i d = f i := by
  rw [List.getD_eq_getElem _ _ (by simpa using hi)]
  simp

/-- Reading a mapped range list at or above the bound gives the default. -/
lemma getD_map_range_ge {α : Type} (f : ℕ → α) (n i : ℕ) (d : α) (hi : n ≤ i) :
    ((List.range n).map f).getD i d = d :=
  List.getD_eq_default _ _ (by simpa using hi)

/-- Per-index reading of a set list at the written index. -/
lemma getD_set_self {α : Type} (l : List α) (i : ℕ) (v d : α)
    (h : i < l.length) : (l.set i v).getD i d = v := by
  rw [List.getD_eq_getElem _ _ (by simpa using h)]
  simp [List.getElem_set_self]

/-- Per-index reading of a set list away from the written index. -/
lemma getD_set_ne {α : Type} (l : List α) (i j : ℕ) (v d : α)
    (h : i ≠ j) : (l.set i v).getD j d = l.getD j d := by
  rcases Nat.lt_or_ge j l.length with hj | hj
  · rw [List.getD_eq_getElem _ _ (by simpa using hj),
      List.getD_eq_getElem _ _ hj]
    exact List.getElem_set_ne h (by simpa using hj)
  · rw [List.getD_eq_default _ _ (by simpa using hj),
      List.getD_eq_default _ _ hj]

lemma setEach_zero (f : ℕ → List ℤ → List ℤ) (l : List (List ℤ)) :
    setEach f l 0 = l := rfl

lemma setEach_succ (f : ℕ → List ℤ → List ℤ) (l : List (List ℤ)) (n : ℕ) :
    setEach f l (n + 1) =
      (setEach f l n).set n (f n ((setEach f l n).getD n [])) := by
  unfold setEach
  rw [List.range_succ, List.foldl_append]
  rfl

lemma setEach_length (f : ℕ → List ℤ → List ℤ) (l : List (List ℤ)) (n : ℕ) :
    (setEach f l n).length = l.length := by
  induction n with
  | zero => rfl
  | succ n ih => rw [setEach_succ, List.length_set, ih]

lemma setEach_getD (f : ℕ → List ℤ → List ℤ) (l : List (List ℤ)) (n c : ℕ) :
    (setEach f l n).getD c [] =
      if c < n ∧ c < l.length then f c (l.getD c []) else l.getD c [] := by
  induction n with
  | zero =>
    simp [setEach_zero]
  | succ n ih =>
    rw [setEach_succ]
    rcases eq_or_ne n c with rfl | hne
    · rcases Nat.lt_or_ge n l.length with hl | hl
      · rw [getD_set_self _ _ _ _ (by rw [setEach_length]; exact hl), ih]
        simp [hl, Nat.lt_irrefl, Nat.lt_succ_self]
      · rw [List.set_eq_of_length_le (by rw [setEach_length]; exact hl), ih]
        simp [Nat.not_lt.mpr hl, Nat.lt_irrefl]
    · rw [getD_set_ne _ _ _ _ _ hne, ih]
      have : c < n + 1 ↔ c < n := by
        constructor
        · intro h
          rcases Nat.lt_succ_iff_lt_or_eq.mp h with h' | h'
          · exact h'
          · exact absurd h'.symm hne
        · exact fun h => Nat.lt_succ_of_lt h
      simp only [this]

/-- The first component of a pair fold whose first component evolves
independently of the second. -/
lemma foldl_fst {β γ δ : Type} (F : β × γ → δ → β × γ) (G : β → δ → β)
    (h : ∀ p d, (F p d).1 = G p.1 d) (L : List δ) :
    ∀ p : β × γ, (L.foldl F p).1 = L.foldl G p.1 := by
  induction L with
  | nil => intro p; rfl
  | cons d L ih =>
    intro p
    rw [List.foldl_cons, List.foldl_cons, ih, h]

/-- The getOutput channel loop splits into two independent per-channel
updates: the accumulator channels get shifted and cleared, the destination
channels receive the first k samples of the original accumulator channel. -/
lemma outFold_spec (accLen k : ℕ) (A B : List (List ℤ)) (n : ℕ) :
    (List.range n).foldl (outStep accLen k) (A, B) =
      (setEach (fun _ ch => shiftClearCh accLen k ch) A n,
       setEach (fun c ch => (A.getD c []).take k ++ ch.drop k) B n) := by
  induction n with
  | zero => rfl
  | succ n ih =>
    rw [List.range_succ, List.foldl_append, ih]
    show outStep accLen k _ n = _
    unfold outStep
    rw [setEach_succ, setEach_succ]
    refine Prod.ext ?_ ?_
    · rfl
    · show (setEach (fun c ch => (A.getD c []).take k ++ ch.drop k) B n).set n
        (((setEach (fun _ ch => shiftClearCh accLen k ch) A n).getD n []).take k ++ _) = _
      rw [setEach_getD]
      simp [Nat.lt_irrefl]

/-- Reading addSamples below the accumulation length. -/
lemma addSamples_getD (len : ℕ) (dst contrib : List ℤ) (i : ℕ) (hi : i < len) :
    (addSamples len dst contrib).getD i 0 = dst.getD i 0 + contrib.getD i 0 :=
  getD_map_range _ _ _ _ hi

/-- Reading a linear convolution list below its length. -/
lemma linConvList_getD (x h : List ℤ) (len i : ℕ) (hi : i < len) :
    (linConvList x h len).getD i 0 = convCoeff x h i :=
  getD_map_range _ _ _ _ hi

/-- Zero-padding does not change per-index reads with default zero. -/
lemma padTo_getD (n : ℕ) (l : List ℤ) (hn : l.length ≤ n) (k : ℕ) :
    (padTo n l).getD k 0 = l.getD k 0 := by
  unfold padTo
  rw [List.take_of_length_le hn]
  rcases Nat.lt_or_ge k l.length with hk | hk
  · exact List.getD_append _ _ _ _ hk
  · rw [List.getD_append_right _ _ _ _ hk, List.getD_eq_default _ _ hk]
    rcases Nat.lt_or_ge (k - l.length) (n - l.length) with hk2 | hk2
    · rw [List.getD_eq_getElem _ _ (by simpa using hk2)]
      simp
    · exact List.getD_eq_default _ _ (by simpa using hk2)

/-- Convolution coefficients only depend on per-index reads of the first
argument. -/
lemma convCoeff_congr_left (x y h : List ℤ)
    (hxy : ∀ k, x.getD k 0 = y.getD k 0) (n : ℕ) :
    convCoeff x h n = convCoeff y h n := by
  unfold convCoeff
  exact Finset.sum_congr rfl (fun k _ => by rw [hxy k])

/-- Specification of the fuel computation: the result bounds the input by
the corresponding power of two, provided the fuel covers the input. -/
lemma ceilLog2Go_le (fuel : ℕ) : ∀ n : ℕ, n ≤ fuel → n ≤ 2 ^ ceilLog2Go fuel n := by
  induction fuel with
  | zero =>
    intro n hn
    simp only [Nat.le_zero] at hn
    simp [hn, ceilLog2Go]
  | succ fuel ih =>
    intro n hn
    unfold ceilLog2Go
    rcases le_or_lt n 1 with h1 | h1
    · rw [if_pos h1]
      exact h1.trans (by norm_num)
    · rw [if_neg (by omega)]
      have hrec : (n + 1) / 2 ≤ fuel := by omega
      have h2 := ih ((n + 1) / 2) hrec
      rw [pow_succ]
      omega

/-- The ceiling log2 dominates the input. -/
lemma le_pow_ceilLog2 (n : ℕ) : n ≤ 2 ^ ceilLog2 n :=
  ceilLog2Go_le n n le_rfl

/-- Minimality of the fuel computation among exponents whose power
dominates the input. -/
lemma ceilLog2Go_min (fuel : ℕ) :
    ∀ n j : ℕ, n ≤ fuel → n ≤ 2 ^ j → ceilLog2Go fuel n ≤ j := by
  induction fuel with
  | zero =>
    intro n j _ _
    simp [ceilLog2Go]
  | succ fuel ih =>
    intro n j hn hj
    unfold ceilLog2Go
    rcases le_or_lt n 1 with h1 | h1
    · simp [h1]
    · rw [if_neg (by omega)]
      have hjpos : 1 ≤ j := by
        by_contra hc
        have hj0 : j = 0 := by omega
        subst hj0
        simp at hj
        omega
      have h3 : j - 1 + 1 = j := by omega
      have h2 : 2 ^ j = 2 * 2 ^ (j - 1) := by
        calc 2 ^ j = 2 ^ (j - 1 + 1) := by rw [h3]
        _ = 2 ^ (j - 1) * 2 := pow_succ 2 (j - 1)
        _ = 2 * 2 ^ (j - 1) := by ring
      have hrec : (n + 1) / 2 ≤ 2 ^ (j - 1) := by omega
      have h4 := ih ((n + 1) / 2) (j - 1) (by omega) hrec
      omega

/-- Minimality of ceilLog2. -/
lemma ceilLog2_min (n j : ℕ) (hj : n ≤ 2 ^ j) : ceilLog2 n ≤ j :=
  ceilLog2Go_min n n j le_rfl hj

/- Claim theorems -/

/-- Claim C3 counterexample: constructing with filter length 4 and maximum
block size 2 yields an accumulator of 8 samples per channel, not the
convolution-result length 4 + 2 - 1 = 5. -/
theorem C3_accLen_counterexample :
    (mkBeamformer 1 MicConfig.ULA_1ESTICK 2 4 synthId 1).outBuffer.samples = 8 ∧
    (8 : ℕ) ≠ 4 + 2 - 1 := by
  constructor
  · rfl
  · decide

/-- Claim C3 amended: after construction with filter length L and maximum
block size B the accumulator per-channel length is 2 to the ceiling of
log2 of (L + B - 1) - the FFT size - which is at least the
convolution-result length L + B - 1 but equals it only when that is a
power of two; every channel is allocated cleared at that length. -/
theorem C3_accLen_amended :
    ∀ (ns : ℕ) (mic : MicConfig) (mb fl : ℕ)
      (synth : BeamParameters → ℚ → AudioBuffer → AudioBuffer) (a : ℚ),
      (mkBeamformer ns mic mb fl synth a).outBuffer.samples =
        2 ^ ceilLog2 (fl + mb - 1) ∧
      fl + mb - 1 ≤ (mkBeamformer ns mic mb fl synth a).outBuffer.samples ∧
      (mkBeamformer ns mic mb fl synth a).outBuffer.data =
        List.replicate (micConfigParams mic).1
          (List.replicate (2 ^ ceilLog2 (fl + mb - 1)) 0) := by
  intro ns mic mb fl synth a
  have h2 : 2 * 2 ^ ceilLog2 (fl + mb - 1) / 2 = 2 ^ ceilLog2 (fl + mb - 1) := by
    omega
  have hs : (mkBeamformer ns mic mb fl synth a).outBuffer.samples =
      2 ^ ceilLog2 (fl + mb - 1) := by
    show 2 * 2 ^ ceilLog2 (fl + mb - 1) / 2 = _
    exact h2
  refine ⟨hs, ?_, ?_⟩
  · rw [hs]
    exact le_pow_ceilLog2 _
  · show List.replicate (micConfigParams mic).1
        (List.replicate (2 * 2 ^ ceilLog2 (fl + mb - 1) / 2) 0) = _
    rw [h2]

/-- Claim C7 counterexample: on a two-source engine, setParams with source
index 5 does not fail fast leaving the state unchanged; it runs into the
unchecked out-of-range vector access firIR[5] (modelled as the undefined
result none), with no error reported to the caller. -/
theorem C7_setParams_counterexample :
    setParams stC7 5 prm0 = none ∧ setParams stC7 5 prm0 ≠ some stC7 := by
  have h : setParams stC7 5 prm0 = none := rfl
  refine ⟨h, ?_⟩
  rw [h]
  intro hc
  exact Option.noConfusion hc

/-- Claim C7 amended: setParams performs no index validation beyond the
null-algorithm guard; for every index at or beyond the FIR vector length
it reaches the unchecked vector access, whose behavior is undefined
(modelled as none), instead of failing fast with a reportable error. -/
theorem C7_setParams_amended (st : Beamformer) (i : ℕ) (p : BeamParameters)
    (halg : st.algSynth.isSome = true) (hi : st.firIR.length ≤ i) :
    setParams st i p = none := by
  obtain ⟨synth, hsy⟩ := Option.isSome_iff_exists.mp halg
  unfold setParams
  rw [hsy, List.get?_eq_none.mpr hi]

/-- Claim C7 amended witness at a concrete out-of-range index. -/
theorem C7_setParams_amended_witness : setParams stC7 7 prm0 = none :=
  C7_setParams_amended stC7 7 prm0 rfl (by decide)

/-- Claim C9: getFir is read-only with respect to the engine; it leaves
the whole state, and in particular the stored FIRs, frequency-domain
FIRs, input buffer, convolution buffer, output accumulator and geometry,
unchanged. -/
theorem C9_getFir_pure :
    ∀ (st : Beamformer) (fir : AudioBuffer) (p : BeamParameters) (a : ℚ),
      (getFir st fir p a).1 = st ∧
      (getFir st fir p a).1.firIR = st.firIR ∧
      (getFir st fir p a).1.firFFT = st.firFFT ∧
      (getFir st fir p a).1.inputBuffer = st.inputBuffer ∧
      (getFir st fir p a).1.convolutionBuffer = st.convolutionBuffer ∧
      (getFir st fir p a).1.outBuffer = st.outBuffer ∧
      getMicConfig (getFir st fir p a).1 = getMicConfig st := by
  intro st fir p a
  have h : (getFir st fir p a).1 = st := by
    unfold getFir
    cases st.algSynth <;> rfl
  rw [h]
  exact ⟨rfl, rfl, rfl, rfl, rfl, rfl, rfl⟩

/-- Claim C8: the configuration catalog resolves exactly as listed; the
constructor stores the resolved pair and the configuration; and
setParams, processBlock, getOutput and getFir all preserve the
configuration, microphone count and row count, so getMicConfig always
returns the construction-time configuration. -/
theorem C8_micConfig_invariant :
    (micConfigParams MicConfig.ULA_1ESTICK = (16, 1) ∧
     micConfigParams MicConfig.ULA_2ESTICK = (32, 1) ∧
     micConfigParams MicConfig.ULA_3ESTICK = (48, 1) ∧
     micConfigParams MicConfig.ULA_4ESTICK = (64, 1) ∧
     micConfigParams MicConfig.URA_2ESTICK = (32, 2) ∧
     micConfigParams MicConfig.URA_3ESTICK = (48, 3) ∧
     micConfigParams MicConfig.URA_4ESTICK = (64, 4) ∧
     micConfigParams MicConfig.URA_2x2ESTICK = (64, 2)) ∧
    (∀ (ns : ℕ) (mic : MicConfig) (mb fl : ℕ)
       (synth : BeamParameters → ℚ → AudioBuffer → AudioBuffer) (a : ℚ),
       getMicConfig (mkBeamformer ns mic mb fl synth a) = mic ∧
       (mkBeamformer ns mic mb fl synth a).numMic = (micConfigParams mic).1 ∧
       (mkBeamformer ns mic mb fl synth a).numRows = (micConfigParams mic).2) ∧
    (∀ (st : Beamformer) (i : ℕ) (p : BeamParameters),
       getMicConfig (setParamsD st i p) = getMicConfig st ∧
       (setParamsD st i p).numMic = st.numMic ∧
       (setParamsD st i p).numRows = st.numRows) ∧
    (∀ (st : Beamformer) (b : AudioBuffer),
       getMicConfig (processBlock st b) = getMicConfig st ∧
       (processBlock st b).numMic = st.numMic ∧
       (processBlock st b).numRows = st.numRows) ∧
    (∀ (st : Beamformer) (d : AudioBuffer),
       getMicConfig (getOutput st d).1 = getMicConfig st ∧
       (getOutput st d).1.numMic = st.numMic ∧
       (getOutput st d).1.numRows = st.numRows) ∧
    (∀ (st : Beamformer) (f : AudioBuffer) (p : BeamParameters) (a : ℚ),
       getMicConfig (getFir st f p a).1 = getMicConfig st ∧
       (getFir st f p a).1.numMic = st.numMic ∧
       (getFir st f p a).1.numRows = st.numRows) := by
  refine ⟨⟨rfl, rfl, rfl, rfl, rfl, rfl, rfl, rfl⟩, ?_, ?_, ?_, ?_, ?_⟩
  · intro ns mic mb fl synth a
    exact ⟨rfl, rfl, rfl⟩
  · intro st i p
    unfold setParamsD setParams
    cases st.algSynth with
    | none => exact ⟨rfl, rfl, rfl⟩
    | some synth =>
      cases st.firIR.get? i with
      | none => cases st.firFFT.get? i <;> exact ⟨rfl, rfl, rfl⟩
      | some fir => cases st.firFFT.get? i with
        | none => exact ⟨rfl, rfl, rfl⟩
        | some fbuf => exact ⟨rfl, rfl, rfl⟩
  · intro st b
    exact ⟨rfl, rfl, rfl⟩
  · intro st d
    exact ⟨rfl, rfl, rfl⟩
  · intro st f p a
    unfold getFir
    cases st.algSynth <;> exact ⟨rfl, rfl, rfl⟩

/-- Claim C6: a processBlock call on the surrounding processor before
resources are allocated, or after releaseResources tears them down,
returns immediately leaving both the audio buffer and the whole processor
state (hence all engine state) unchanged; the resourcesAllocated flag is
the ready query that implements the policy. -/
theorem C6_uninitialized_noop :
    (∀ (p : EstickProcessor) (buf : AudioBuffer),
       p.resourcesAllocated = false → procProcessBlock p buf = (p, buf)) ∧
    (∀ (p : EstickProcessor) (buf : AudioBuffer),
       procProcessBlock (releaseResources p) buf = (releaseResources p, buf)) := by
  constructor
  · intro p buf h
    unfold procProcessBlock
    rw [h]
    simp
  · intro p buf
    unfold procProcessBlock releaseResources
    simp

/-- Shift and clear of one well-formed accumulator channel: dropping the
consumed samples and zero-filling the tail. -/
lemma shiftClearCh_wf (accLen k : ℕ) (ch : List ℤ) (hlen : ch.length = accLen)
    (hk : k ≤ accLen) :
    shiftClearCh accLen k ch = ch.drop k ++ List.replicate k 0 := by
  unfold shiftClearCh
  have h1 : (ch.drop k).length = accLen - k := by
    rw [List.length_drop, hlen]
  rw [List.take_of_length_le (le_of_eq h1), Nat.sub_sub_self hk]

/-- Claim C6 witness: a concrete unready processor call is the identity on
processor and buffer. -/
theorem C6_uninitialized_noop_witness :
    procProcessBlock procW bufW = (procW, bufW) :=
  C6_uninitialized_noop.1 procW bufW rfl

/-- Claim C1 counterexample: on a 16-microphone engine whose accumulator
channel 1 holds a non-zero sample, getOutput into a single-channel
destination (sample count 1 = accumulator length and channel count 1 =
16 microphones, the quantified hypotheses of the claim) leaves
accumulator channel 1 unshifted, while the claim predicts it becomes its
left shift with zero fill. -/
theorem C1_getOutput_counterexample :
    dstC1.samples ≤ stC1.outBuffer.samples ∧
    dstC1.data.length ≤ stC1.numMic ∧
    stC1.outBuffer.data.getD 1 [] = [1] ∧
    (getOutput stC1 dstC1).1.outBuffer.data.getD 1 [] = [1] ∧
    (stC1.outBuffer.data.getD 1 []).drop dstC1.samples ++
      List.replicate dstC1.samples 0 = [0] ∧
    ([1] : List ℤ) ≠ [0] := by decide

/-- Claim C1 amended: for a destination with k = sample count at most the
accumulator length and channel count at most the microphone count,
getOutput copies the first k accumulator samples of each of the first
(destination channel count) channels into the destination and shifts
exactly those accumulator channels left by k with a zero-filled tail;
accumulator channels with index at or beyond the destination channel
count are left unchanged, and all lengths are preserved. -/
theorem C1_getOutput_amended (st : Beamformer) (dst : AudioBuffer)
    (hk : dst.samples ≤ st.outBuffer.samples)
    (hch : dst.data.length ≤ st.numMic)
    (hmic : st.numMic ≤ st.outBuffer.data.length)
    (hwa : ∀ c, c < dst.data.length →
      (st.outBuffer.data.getD c []).length = st.outBuffer.samples)
    (hwd : ∀ c, c < dst.data.length →
      (dst.data.getD c []).length = dst.samples) :
    ((getOutput st dst).2.samples = dst.samples ∧
     (getOutput st dst).1.outBuffer.samples = st.outBuffer.samples ∧
     (getOutput st dst).1.outBuffer.data.length = st.outBuffer.data.length) ∧
    (∀ c, c < dst.data.length →
      (getOutput st dst).2.data.getD c [] =
        (st.outBuffer.data.getD c []).take dst.samples) ∧
    (∀ c, c < dst.data.length →
      (getOutput st dst).1.outBuffer.data.getD c [] =
        (st.outBuffer.data.getD c []).drop dst.samples ++
          List.replicate dst.samples 0) ∧
    (∀ c, dst.data.length ≤ c →
      (getOutput st dst).1.outBuffer.data.getD c [] =
        st.outBuffer.data.getD c []) := by
  have hmin : min st.numMic dst.data.length = dst.data.length :=
    min_eq_right hch
  have h1 : (getOutput st dst).1.outBuffer.data =
      setEach (fun _ ch => shiftClearCh st.outBuffer.samples dst.samples ch)
        st.outBuffer.data dst.data.length := by
    show ((List.range (min st.numMic dst.data.length)).foldl
      (outStep st.outBuffer.samples dst.samples)
      (st.outBuffer.data, dst.data)).1 = _
    rw [outFold_spec, hmin]
  have h2 : (getOutput st dst).2.data =
      setEach (fun c ch => (st.outBuffer.data.getD c []).take dst.samples ++
        ch.drop dst.samples) dst.data dst.data.length := by
    show ((List.range (min st.numMic dst.data.length)).foldl
      (outStep st.outBuffer.samples dst.samples)
      (st.outBuffer.data, dst.data)).2 = _
    rw [outFold_spec, hmin]
  refine ⟨⟨rfl, rfl, ?_⟩, ?_, ?_, ?_⟩
  · rw [h1]
    exact setEach_length _ _ _
  · intro c hc
    rw [h2, setEach_getD, if_pos ⟨hc, hc⟩]
    have hnil : (dst.data.getD c []).drop dst.samples = [] := by
      rw [← hwd c hc]
      exact List.drop_length _
    rw [hnil, List.append_nil]
  · intro c hc
    rw [h1, setEach_getD,
      if_pos ⟨hc, lt_of_lt_of_le hc (le_trans hch hmic)⟩]
    exact shiftClearCh_wf _ _ _ (hwa c hc) hk
  · intro c hc
    rw [h1, setEach_getD, if_neg]
    intro hcon
    exact absurd hcon.1 (Nat.not_lt.mpr hc)

/-- Claim C1 amended witness: a two-microphone accumulator holding 1,2,3
and 4,5,6 against a two-channel destination requesting two samples. -/
theorem C1_getOutput_amended_witness :
    (getOutput stW dstW).2.data.getD 0 [] = [1, 2] ∧
    (getOutput stW dstW).1.outBuffer.data.getD 1 [] = [6, 0, 0] := by
  have h := C1_getOutput_amended stW dstW (by decide) (by decide) (by decide)
    (by decide) (by decide)
  exact ⟨(h.2.1 0 (by decide)).trans (by decide),
    (h.2.2.1 1 (by decide)).trans (by decide)⟩

/-- Claim C10: getOutput writes only the first min(microphone count,
destination channel count) destination channels; every destination
channel at or beyond the microphone count is left unchanged, and the
destination channel count and sample count are preserved. -/
theorem C10_getOutput_frame (st : Beamformer) (dst : AudioBuffer) (c : ℕ)
    (hc : st.numMic ≤ c) :
    (getOutput st dst).2.data.getD c [] = dst.data.getD c [] ∧
    (getOutput st dst).2.data.length = dst.data.length ∧
    (getOutput st dst).2.samples = dst.samples := by
  have h2 : (getOutput st dst).2.data =
      setEach (fun c ch => (st.outBuffer.data.getD c []).take dst.samples ++
        ch.drop dst.samples) dst.data (min st.numMic dst.data.length) := by
    show ((List.range (min st.numMic dst.data.length)).foldl
      (outStep st.outBuffer.samples dst.samples)
      (st.outBuffer.data, dst.data)).2 = _
    rw [outFold_spec]
  refine ⟨?_, ?_, rfl⟩
  · rw [h2, setEach_getD, if_neg]
    intro hcon
    exact absurd (lt_of_lt_of_le hcon.1 (min_le_left _ _)) (Nat.not_lt.mpr hc)
  · rw [h2]
    exact setEach_length _ _ _

/-- Claim C10 witness: a three-channel destination against the
two-microphone engine keeps its third channel. -/
theorem C10_getOutput_frame_witness :
    (getOutput stW dstW10).2.data.getD 2 [] = [9] :=
  ((C10_getOutput_frame stW dstW10 2 (by decide)).1).trans (by decide)

/-- Claim C2 counterexample: in the end-to-end run named by the claim
(one source, filter length 4, block size 2, FIR 1,1,1,1, blocks 1,0 then
three zero blocks), the output stream sample at index 4 is 0, not the 1
the claimed latency of 3 samples predicts (the claim places the four unit
samples at stream indices 3 to 6). -/
theorem C2_endToEnd_counterexample :
    c2Out.getD 4 0 = 0 ∧ c2Out.getD 4 0 ≠ 1 := by decide

/-- Claim C2 amended: the end-to-end run reproduces the linear
convolution of the input stream 1,0,0,... with the FIR 1,1,1,1 with zero
end-to-end latency: the eight emitted samples are exactly 1,1,1,1,0,0,0,0
starting at stream index 0 (not delayed by filterLength - 1 = 3). -/
theorem C2_endToEnd_amended :
    c2Out = linConvList [1, 0, 0, 0, 0, 0, 0, 0] [1, 1, 1, 1] 8 ∧
    c2Out = [1, 1, 1, 1, 0, 0, 0, 0] := by decide

/-- Restaging a time series into an already staged buffer is the same as
staging into the original buffer: setTimeSeries only depends on the
channel count and FFT size, both of which it preserves. -/
lemma setTimeSeries_stable (b : AudioBufferFFT) (x y : AudioBuffer) :
    setTimeSeries (setTimeSeries b x) y = setTimeSeries b y := by
  unfold setTimeSeries
  simp

/-- Claim C5: for every valid source index, at the moment setParams
returns the stored frequency-domain FIR of that source is exactly the
forward transform of the stored (updated, smoothed) time-domain FIR of
that source - the update is synchronous, with no staleness window. -/
theorem C5_setParams_sync (st : Beamformer) (i : ℕ) (p : BeamParameters)
    (st' : Beamformer) (halg : st.algSynth.isSome = true)
    (h : setParams st i p = some st') :
    st'.firFFT.getD i dfltFFT =
      fftTimeTransform (st'.firFFT.getD i dfltFFT) (st'.firIR.getD i dfltAB) := by
  obtain ⟨synth, hsy⟩ := Option.isSome_iff_exists.mp halg
  unfold setParams at h
  rw [hsy] at h
  cases hf1 : st.firIR.get? i with
  | none =>
    rw [hf1] at h
    simp at h
  | some fir =>
    rw [hf1] at h
    cases hf2 : st.firFFT.get? i with
    | none =>
      rw [hf2] at h
      simp at h
    | some fbuf =>
      rw [hf2] at h
      have hi1 : i < st.firIR.length := by
        by_contra hc
        rw [List.get?_eq_none.mpr (Nat.not_lt.mp hc)] at hf1
        exact Option.noConfusion hf1
      have hi2 : i < st.firFFT.length := by
        by_contra hc
        rw [List.get?_eq_none.mpr (Nat.not_lt.mp hc)] at hf2
        exact Option.noConfusion hf2
      injection h with h'
      subst h'
      dsimp only
      rw [getD_set_self _ _ _ _ hi2, getD_set_self _ _ _ _ hi1]
      unfold fftTimeTransform prepareForConvolution
      exact (setTimeSeries_stable fbuf (synth p st.alpha fir)
        (synth p st.alpha fir)).symm

/-- Claim C5 witness: on the concrete 16-microphone engine, the state
right after setParams satisfies the consistency equation. -/
theorem C5_setParams_sync_witness :
    stC5a.firFFT.getD 0 dfltFFT =
      fftTimeTransform (stC5a.firFFT.getD 0 dfltFFT) (stC5a.firIR.getD 0 dfltAB) :=
  C5_setParams_sync stC5 0 prm0 stC5a rfl rfl

/-- Extraction of the accumulator update performed by processBlock: the
nested source and microphone loops amount to folding the per-source
accumulation step over the source range (the convolution scratch buffer
does not feed back into the accumulated values). -/
lemma processBlock_out (st : Beamformer) (inBlock : AudioBuffer) :
    (processBlock st inBlock).outBuffer.data =
      (List.range st.numSources).foldl
        (accumStep
          (fun s m => linConvList
            ((prepareForConvolution (setTimeSeries st.inputBuffer inBlock)).chans.getD s [])
            ((st.firFFT.getD s dfltFFT).chans.getD m [])
            (2 * 2 ^ st.fftOrder))
          st.outBuffer.samples st.numMic)
        st.outBuffer.data := by
  show ((List.range st.numSources).foldl _
    (st.outBuffer.data, st.convolutionBuffer.chans)).1 = _
  refine foldl_fst _ _ ?_ (List.range st.numSources) _
  intro p s
  exact foldl_fst _ _ (fun q m => rfl) (List.range st.numMic) p

/-- Folding accumulation steps preserves the channel count. -/
lemma accumFold_length (conv : ℕ → ℕ → List ℤ) (len nMic : ℕ)
    (A : List (List ℤ)) (nSrc : ℕ) :
    ((List.range nSrc).foldl (accumStep conv len nMic) A).length = A.length := by
  induction nSrc with
  | zero => rfl
  | succ n ih =>
    rw [List.range_succ, List.foldl_append]
    show (setEach (fun c ch => addSamples len ch (conv n c))
      ((List.range n).foldl (accumStep conv len nMic) A) nMic).length = _
    rw [setEach_length, ih]

/-- Entry-wise effect of folding accumulation steps: each microphone
channel entry receives the sum of the per-source contributions. -/
lemma accumFold_entry (conv : ℕ → ℕ → List ℤ) (len nMic : ℕ)
    (A : List (List ℤ)) (m i : ℕ) (hm : m < nMic) (hmA : m < A.length)
    (hi : i < len) (nSrc : ℕ) :
    (((List.range nSrc).foldl (accumStep conv len nMic) A).getD m []).getD i 0 =
      (A.getD m []).getD i 0 + ∑ s ∈ Finset.range nSrc, (conv s m).getD i 0 := by
  induction nSrc with
  | zero => simp
  | succ n ih =>
    rw [List.range_succ, List.foldl_append]
    show ((setEach (fun c ch => addSamples len ch (conv n c))
      ((List.range n).foldl (accumStep conv len nMic) A) nMic).getD m []).getD i 0 = _
    rw [setEach_getD,
      if_pos ⟨hm, by rw [accumFold_length conv len nMic A n]; exact hmA⟩,
      addSamples_getD _ _ _ _ hi, ih, Finset.sum_range_succ]
    ring

/-- Claim C4: the contribution accumulated by one processBlock call into
microphone channel m of the output accumulator is the sum, over all
sources s, of the linear convolution of source s input channel with the
(prepared) FIR from source s to microphone m - the superposition of the
independent sources.  The two-source zero-split formulation follows by
splitting the sum. -/
theorem C4_processBlock_superposition (st : Beamformer) (inb : AudioBuffer)
    (m i : ℕ) (hm : m < st.numMic) (hmA : m < st.outBuffer.data.length)
    (hi : i < st.outBuffer.samples)
    (hsz : st.outBuffer.samples ≤ 2 * 2 ^ st.fftOrder)
    (hins : st.numSources ≤ st.inputBuffer.chans.length)
    (hlen : ∀ s, s < st.numSources →
      (inb.data.getD s []).length ≤ 2 * st.inputBuffer.fftSize) :
    ((processBlock st inb).outBuffer.data.getD m []).getD i 0 =
      (st.outBuffer.data.getD m []).getD i 0 +
      ∑ s ∈ Finset.range st.numSources,
        convCoeff (inb.data.getD s [])
          ((st.firFFT.getD s dfltFFT).chans.getD m []) i := by
  rw [processBlock_out, accumFold_entry _ _ _ _ _ _ hm hmA hi]
  congr 1
  apply Finset.sum_congr rfl
  intro s hs
  have hs' : s < st.numSources := Finset.mem_range.mp hs
  rw [linConvList_getD _ _ _ _ (lt_of_lt_of_le hi hsz)]
  have hstage : (prepareForConvolution (setTimeSeries st.inputBuffer inb)).chans.getD s [] =
      padTo (2 * st.inputBuffer.fftSize) (inb.data.getD s []) := by
    unfold prepareForConvolution setTimeSeries
    exact getD_map_range _ _ _ _ (lt_of_lt_of_le hs' hins)
  rw [hstage]
  exact convCoeff_congr_left _ _ _ (padTo_getD _ _ (hlen s hs')) i

/-- Claim C4 witness: with two sources feeding samples 3 and 5 through
one-tap FIRs equal to 2, the single microphone accumulator entry becomes
3 times 2 plus 5 times 2. -/
theorem C4_processBlock_superposition_witness :
    ((processBlock stC4 inC4).outBuffer.data.getD 0 []).getD 0 0 = 16 :=
  (C4_processBlock_superposition stC4 inC4 0 0 (by decide) (by decide)
    (by decide) (by decide) (by decide) (by decide)).trans (by decide)
